import Mathlib

/-!
Verification of the colstodian color-encoding/conversion core.

Numeric model: `f32` values are embedded as the type `F`, an exact rational
carrier extended with the IEEE-754 special values `inf`, `neginf` and `nan`.
Arithmetic on finite values is exact (rounding error is not modelled); the
special-value propagation rules follow IEEE-754, matching Rust `f32`
semantics for the operations the source uses (`+`, `-`, `*`, `/`, `clamp`,
`round`, saturating `as u8` casts).

The per-encoding transform functions from `src/details/encodings.rs` are
translated directly.  The external `kolor` transform provider (sRGB
EOTF/OETF, Oklab matrices, linear-space conversion matrices) is treated as a
black box, exactly as the spec prescribes: those functions appear as
parameters of the definitions that call them.
-/

/-- Model of a Rust `f32` value: an exact rational, or one of the IEEE-754
special values. -/
inductive F where
  | fin : ℚ → F
  | inf : F
  | neginf : F
  | nan : F
deriving DecidableEq, Repr

namespace F

/-- IEEE negation. -/
def neg : F → F
  | .fin q => .fin (-q)
  | .inf => .neginf
  | .neginf => .inf
  | .nan => .nan

/-- IEEE addition (exact on finite values). -/
def add : F → F → F
  | .fin a, .fin b => .fin (a + b)
  | .fin _, .inf => .inf
  | .fin _, .neginf => .neginf
  | .fin _, .nan => .nan
  | .inf, .fin _ => .inf
  | .inf, .inf => .inf
  | .inf, .neginf => .nan
  | .inf, .nan => .nan
  | .neginf, .fin _ => .neginf
  | .neginf, .inf => .nan
  | .neginf, .neginf => .neginf
  | .neginf, .nan => .nan
  | .nan, _ => .nan

/-- IEEE subtraction. -/
def sub (x y : F) : F := add x (neg y)

/-- IEEE multiplication (exact on finite values); `inf * 0 = nan`. -/
def mul : F → F → F
  | .fin a, .fin b => .fin (a * b)
  | .fin a, .inf => if 0 < a then .inf else if a < 0 then .neginf else .nan
  | .fin a, .neginf => if 0 < a then .neginf else if a < 0 then .inf else .nan
  | .fin _, .nan => .nan
  | .inf, .fin b => if 0 < b then .inf else if b < 0 then .neginf else .nan
  | .inf, .inf => .inf
  | .inf, .neginf => .neginf
  | .inf, .nan => .nan
  | .neginf, .fin b => if 0 < b then .neginf else if b < 0 then .inf else .nan
  | .neginf, .inf => .neginf
  | .neginf, .neginf => .inf
  | .neginf, .nan => .nan
  | .nan, _ => .nan

/-- IEEE division (exact on finite values); `x / 0` is `inf`, `neginf` or
`nan` depending on the sign of `x` (the model does not track signed zero;
zero divisors behave as `+0.0`). -/
def div : F → F → F
  | .fin a, .fin b =>
      if b ≠ 0 then .fin (a / b)
      else if 0 < a then .inf else if a < 0 then .neginf else .nan
  | .fin _, .inf => .fin 0
  | .fin _, .neginf => .fin 0
  | .fin _, .nan => .nan
  | .inf, .fin b => if b < 0 then .neginf else .inf
  | .inf, .inf => .nan
  | .inf, .neginf => .nan
  | .inf, .nan => .nan
  | .neginf, .fin b => if b < 0 then .inf else .neginf
  | .neginf, .inf => .nan
  | .neginf, .neginf => .nan
  | .neginf, .nan => .nan
  | .nan, _ => .nan

/-- IEEE `<` comparison as a Bool; `nan` compares false with everything. -/
def ltb : F → F → Bool
  | .fin a, .fin b => decide (a < b)
  | .fin _, .inf => true
  | .fin _, .neginf => false
  | .fin _, .nan => false
  | .inf, .inf => false
  | .inf, .fin _ => false
  | .inf, .neginf => false
  | .inf, .nan => false
  | .neginf, .fin _ => true
  | .neginf, .inf => true
  | .neginf, .neginf => false
  | .neginf, .nan => false
  | .nan, _ => false

/-- Rust `f32::clamp(min, max)`: sets to `min` if below, to `max` if above;
`nan` propagates (both comparisons are false for `nan`). -/
def clamp (x lo hi : F) : F :=
  if ltb x lo then lo else if ltb hi x then hi else x

/-- Round half away from zero on rationals, matching Rust `f32::round`. -/
def roundQ (q : ℚ) : ℚ :=
  if 0 ≤ q then ((⌊q + 1/2⌋ : ℤ) : ℚ) else ((-⌊-q + 1/2⌋ : ℤ) : ℚ)

/-- Rust `f32::round`: half away from zero; special values map to
themselves. -/
def roundF : F → F
  | .fin q => .fin (roundQ q)
  | .inf => .inf
  | .neginf => .neginf
  | .nan => .nan

/-- Rust saturating float-to-integer cast `as u8`: truncates toward zero,
saturates at the bounds, `nan` maps to 0. -/
def u8cast : F → ℕ
  | .fin q => if q ≤ 0 then 0 else if 255 ≤ q then 255 else (⌊q⌋).toNat
  | .inf => 255
  | .neginf => 0
  | .nan => 0

/-- Whether the value is an ordinary (finite) number. -/
def isFinite : F → Bool
  | .fin _ => true
  | _ => false

instance : OfNat F n := ⟨F.fin n⟩

end F

/-- Model of `glam::Vec3` over the `F` carrier. -/
structure V3 where
  x : F
  y : F
  z : F
deriving DecidableEq, Repr

/-- Model of `glam::Vec4` over the `F` carrier. -/
structure V4 where
  x : F
  y : F
  z : F
  w : F
deriving DecidableEq, Repr

namespace V4

/-- `glam::Vec4Swizzles::xyz`. -/
def xyz (v : V4) : V3 := ⟨v.x, v.y, v.z⟩

/-- Componentwise addition. -/
def add (a b : V4) : V4 := ⟨a.x.add b.x, a.y.add b.y, a.z.add b.z, a.w.add b.w⟩

/-- Componentwise subtraction. -/
def sub (a b : V4) : V4 := ⟨a.x.sub b.x, a.y.sub b.y, a.z.sub b.z, a.w.sub b.w⟩

/-- Scalar multiplication (`Vec4 * f32`). -/
def muls (v : V4) (s : F) : V4 := ⟨v.x.mul s, v.y.mul s, v.z.mul s, v.w.mul s⟩

end V4

namespace V3

/-- `Vec3::extend`: append a fourth component. -/
def extend (v : V3) (a : F) : V4 := ⟨v.x, v.y, v.z, a⟩

/-- Componentwise addition. -/
def add (a b : V3) : V3 := ⟨a.x.add b.x, a.y.add b.y, a.z.add b.z⟩

/-- Componentwise subtraction. -/
def sub (a b : V3) : V3 := ⟨a.x.sub b.x, a.y.sub b.y, a.z.sub b.z⟩

/-- Scalar multiplication (`Vec3 * f32`). -/
def muls (v : V3) (s : F) : V3 := ⟨v.x.mul s, v.y.mul s, v.z.mul s⟩

/-- Scalar division (`Vec3 / f32`). -/
def divs (v : V3) (s : F) : V3 := ⟨v.x.div s, v.y.div s, v.z.div s⟩

/-- All three components finite. -/
def isFiniteV (v : V3) : Prop :=
  v.x.isFinite = true ∧ v.y.isFinite = true ∧ v.z.isFinite = true

end V3

/-! ## Linear spaces and the encoding contract -/

/-- The linear color spaces used by the embedded encodings
(`src/details/linear_spaces.rs` declares one unit type per space; the file
itself only carries a `(primaries, white point)` pair for each). -/
inductive Space where
  | srgb
  | cieXyz
  | adobeRgb
  | proPhotoRgb
  | displayP3
  | acesCg
  | aces2065
  | bt2020
deriving DecidableEq, Repr

/-- RGB primaries tags (re-exported from `kolor`). -/
inductive Primaries where
  | bt709
  | cieXyz
  | adobeRgb
  | proPhoto
  | p3
  | ap1
  | ap0
  | bt2020
deriving DecidableEq, Repr

/-- White point tags (re-exported from `kolor`). -/
inductive WP where
  | d65
  | d50
deriving DecidableEq, Repr

/-- Modelled from the spec: `src/details/linear_spaces.rs` is absent from
the sources; the spec's Linear Space Registry (§2, §3) assigns each space
its `(primaries, white point)` pair — sRGB uses BT.709 primaries with the
D65 white point, ProPhoto uses D50, the rest use their namesake primaries
with D65. -/
def spaceDesc : Space → Primaries × WP
  | .srgb => (.bt709, .d65)
  | .cieXyz => (.cieXyz, .d65)
  | .adobeRgb => (.adobeRgb, .d65)
  | .proPhotoRgb => (.proPhoto, .d50)
  | .displayP3 => (.p3, .d65)
  | .acesCg => (.ap1, .d65)
  | .aces2065 => (.ap0, .d65)
  | .bt2020 => (.bt2020, .d65)

/-- The `ColorEncoding` trait of `src/details/traits.rs`, restricted to the
data the conversion engine reads: the encoding's `LinearSpace`, its
`src_transform_raw` (raw → linear 3-vector + separate alpha) and its
`dst_transform_raw` (linear 3-vector + alpha → raw).  `R` is the
encoding's `Repr` type. -/
structure Enc (R : Type) where
  space : Space
  srcT : R → V3 × F
  dstT : V3 → F → R

/-- The type of the linear-space conversion provider: for an ordered pair
of linear spaces it yields the fixed 3x3 linear map, represented as its
action on a 3-vector (`LinearConvertFromRaw::linear_part_raw` in
`src/details/traits.rs` — note its signature touches only the 3-component
color vector, never alpha). -/
def LinK : Type := Space → Space → V3 → V3

/-- Modelled from the spec: `Color::convert` lives in
`src/details/color.rs`, which is absent from the sources.  Spec §4.2: apply
`Src::to_linear`; when the two linear spaces differ apply the fixed
linear-space conversion to the 3-vector (identity when they are equal);
apply `Dst::from_linear` with the alpha from step 1.  The `map_src`
pre-transform hook is a no-op for every conversion pair declared in
`src/details/encodings.rs` (all `ConvertFrom` impls are empty), so it does
not appear. -/
def convert {R S : Type} (src : Enc R) (dst : Enc S) (lin : LinK) (c : R) : S :=
  let p := src.srcT c
  let l := if src.space = dst.space then p.1 else lin src.space dst.space p.1
  dst.dstT l p.2

/-! ## Concrete encodings (`src/details/encodings.rs`) -/

/-- `u8_to_f32`: `x as f32 / 255.0` (exact in f32 and in the model). -/
def u8_to_f32 (x : ℕ) : F := F.fin ((x : ℚ) / 255)

/-- `f32_to_u8`: `(x.clamp(0.0, 1.0) * 255.0).round() as u8`. -/
def f32_to_u8 (x : F) : ℕ :=
  F.u8cast (F.roundF ((x.clamp (F.fin 0) (F.fin 1)).mul (F.fin 255)))

namespace Srgb

/-- `Srgb::src_transform_raw`: pass-through, alpha 1. -/
def src_transform_raw (repr : V3) : V3 × F := (repr, F.fin 1)

/-- `Srgb::dst_transform_raw`: pass-through, alpha dropped. -/
def dst_transform_raw (raw : V3) (_ : F) : V3 := raw

/-- The `Srgb` encoding (linear sRGB, no alpha). -/
def enc : Enc V3 := ⟨.srgb, src_transform_raw, fun l a => dst_transform_raw l a⟩

end Srgb

namespace Srgba

/-- `Srgba::src_transform_raw`: `(repr.xyz(), repr.w)`. -/
def src_transform_raw (repr : V4) : V3 × F := (repr.xyz, repr.w)

/-- `Srgba::dst_transform_raw`: `raw.extend(alpha)`. -/
def dst_transform_raw (raw : V3) (alpha : F) : V4 := raw.extend alpha

/-- The `Srgba` encoding (linear sRGB with separate alpha). -/
def enc : Enc V4 := ⟨.srgb, src_transform_raw, dst_transform_raw⟩

end Srgba

namespace SrgbaPremultiplied

/-- `SrgbaPremultiplied::src_transform_raw`: divide the color components by
the stored alpha — `repr.xyz() / repr.w` — with no guard for `w = 0`. -/
def src_transform_raw (repr : V4) : V3 × F := (repr.xyz.divs repr.w, repr.w)

/-- `SrgbaPremultiplied::dst_transform_raw`: `(raw * alpha).extend(alpha)`. -/
def dst_transform_raw (raw : V3) (alpha : F) : V4 := (raw.muls alpha).extend alpha

/-- The `SrgbaPremultiplied` encoding (linear sRGB, premultiplied alpha). -/
def enc : Enc V4 := ⟨.srgb, src_transform_raw, dst_transform_raw⟩

/-- `impl AlphaOver for SrgbaPremultiplied`:
`over.repr + under.repr * (1.0 - over.repr.w)`. -/
def composite (over under : V4) : V4 :=
  over.add (under.muls ((F.fin 1).sub over.w))

end SrgbaPremultiplied

namespace EncodedSrgbF32

/-- `EncodedSrgbF32::src_transform_raw`; `eotf` stands for the external
`kolor` `transform::srgb_eotf(·, WhitePoint::D65)`. -/
def src_transform_raw (eotf : V3 → V3) (repr : V3) : V3 × F := (eotf repr, F.fin 1)

/-- `EncodedSrgbF32::dst_transform_raw`; `oetf` stands for the external
`kolor` `transform::srgb_oetf(·, WhitePoint::D65)`.  No clamp is applied. -/
def dst_transform_raw (oetf : V3 → V3) (raw : V3) (_ : F) : V3 := oetf raw

/-- The `EncodedSrgbF32` encoding, parameterized by the external transform
provider. -/
def enc (eotf oetf : V3 → V3) : Enc V3 :=
  ⟨.srgb, src_transform_raw eotf, fun l a => dst_transform_raw oetf l a⟩

end EncodedSrgbF32

namespace EncodedSrgbaU8

/-- `EncodedSrgbaU8::src_transform_raw`: decode the three u8 color bytes to
f32, apply the sRGB EOTF, decode the alpha byte separately (no EOTF on
alpha). -/
def src_transform_raw (eotf : V3 → V3) (repr : ℕ × ℕ × ℕ × ℕ) : V3 × F :=
  let raw_electro : V3 := ⟨u8_to_f32 repr.1, u8_to_f32 repr.2.1, u8_to_f32 repr.2.2.1⟩
  (eotf raw_electro, u8_to_f32 repr.2.2.2)

/-- `EncodedSrgbaU8::dst_transform_raw`: apply the sRGB OETF to the color
vector, then `f32_to_u8` each channel; alpha goes through `f32_to_u8`
directly (no OETF). -/
def dst_transform_raw (oetf : V3 → V3) (raw : V3) (alpha : F) : ℕ × ℕ × ℕ × ℕ :=
  let electro := oetf raw
  (f32_to_u8 electro.x, f32_to_u8 electro.y, f32_to_u8 electro.z, f32_to_u8 alpha)

/-- The `EncodedSrgbaU8` encoding, parameterized by the external transform
provider. -/
def enc (eotf oetf : V3 → V3) : Enc (ℕ × ℕ × ℕ × ℕ) :=
  ⟨.srgb, src_transform_raw eotf, dst_transform_raw oetf⟩

end EncodedSrgbaU8

namespace EncodedSrgbaF32

/-- `EncodedSrgbaF32::src_transform_raw`: `(srgb_eotf(repr.xyz()), repr.w)`. -/
def src_transform_raw (eotf : V3 → V3) (repr : V4) : V3 × F := (eotf repr.xyz, repr.w)

/-- `EncodedSrgbaF32::dst_transform_raw`: `srgb_oetf(raw).extend(alpha)`;
no clamp is applied to either the color channels or alpha. -/
def dst_transform_raw (oetf : V3 → V3) (raw : V3) (alpha : F) : V4 :=
  (oetf raw).extend alpha

/-- The `EncodedSrgbaF32` encoding, parameterized by the external transform
provider. -/
def enc (eotf oetf : V3 → V3) : Enc V4 :=
  ⟨.srgb, src_transform_raw eotf, dst_transform_raw oetf⟩

end EncodedSrgbaF32

namespace EncodedSrgbaPremultipliedU8

/-- `EncodedSrgbaPremultipliedU8::src_transform_raw`: decode and EOTF the
color bytes, then divide by the decoded alpha — unguarded when the alpha
byte is 0. -/
def src_transform_raw (eotf : V3 → V3) (repr : ℕ × ℕ × ℕ × ℕ) : V3 × F :=
  let optical := eotf ⟨u8_to_f32 repr.1, u8_to_f32 repr.2.1, u8_to_f32 repr.2.2.1⟩
  let a := u8_to_f32 repr.2.2.2
  (optical.divs a, a)

/-- `EncodedSrgbaPremultipliedU8::dst_transform_raw`: premultiply, OETF,
quantize; alpha quantized directly. -/
def dst_transform_raw (oetf : V3 → V3) (raw : V3) (alpha : F) : ℕ × ℕ × ℕ × ℕ :=
  let premultiplied := raw.muls alpha
  let electro := oetf premultiplied
  (f32_to_u8 electro.x, f32_to_u8 electro.y, f32_to_u8 electro.z, f32_to_u8 alpha)

/-- The `EncodedSrgbaPremultipliedU8` encoding, parameterized by the
external transform provider. -/
def enc (eotf oetf : V3 → V3) : Enc (ℕ × ℕ × ℕ × ℕ) :=
  ⟨.srgb, src_transform_raw eotf, dst_transform_raw oetf⟩

/-- `impl AlphaOver for EncodedSrgbaPremultipliedU8`: convert both operands
to `SrgbaPremultiplied`, composite there (`Color::alpha_over` dispatches to
`SrgbaPremultiplied`'s `AlphaOver::composite`), convert the result back. -/
def composite (eotf oetf : V3 → V3) (lin : LinK) (over under : ℕ × ℕ × ℕ × ℕ) :
    ℕ × ℕ × ℕ × ℕ :=
  let overP := convert (enc eotf oetf) SrgbaPremultiplied.enc lin over
  let underP := convert (enc eotf oetf) SrgbaPremultiplied.enc lin under
  let comp := SrgbaPremultiplied.composite overP underP
  convert SrgbaPremultiplied.enc (enc eotf oetf) lin comp

end EncodedSrgbaPremultipliedU8

namespace Srgba

/-- `impl AlphaOver for Srgba`: convert both operands to
`SrgbaPremultiplied`, composite there (`Color::alpha_over` dispatches to
`SrgbaPremultiplied`'s `AlphaOver::composite`), convert the result back. -/
def composite (lin : LinK) (over under : V4) : V4 :=
  let overP := convert Srgba.enc SrgbaPremultiplied.enc lin over
  let underP := convert Srgba.enc SrgbaPremultiplied.enc lin under
  let comp := SrgbaPremultiplied.composite overP underP
  convert SrgbaPremultiplied.enc Srgba.enc lin comp

end Srgba

/-- The blanket `LinearInterpolate::lerp` of `src/details/traits.rs`,
`from.repr + ((to.repr - from.repr) * factor)`, at the `Vec3` reprs of the
working encodings `Srgb`, `Oklab`, etc. -/
def lerpV3 (a b : V3) (factor : F) : V3 := a.add ((b.sub a).muls factor)

/-- The blanket `LinearInterpolate::lerp` of `src/details/traits.rs` at the
`Vec4` repr of the working encoding `Srgba`. -/
def lerpV4 (a b : V4) (factor : F) : V4 := a.add ((b.sub a).muls factor)

/-! ## Custom color spaces (`src/custom.rs`) -/

/-- The type of the external `kolor` `LinearColorConversion` provider: for a
pair of `(primaries, white point)` descriptors it yields the linear
conversion, represented by its action on a 3-vector. -/
def KConv : Type := Primaries × WP → Primaries × WP → V3 → V3

/-- `CustomColorSpace` of `src/custom.rs`: a runtime `(primaries, white
point)` pair. -/
structure CustomColorSpace where
  primaries : Primaries
  white_point : WP
deriving DecidableEq, Repr

namespace CustomColorSpace

/-- `CustomColorSpace::to_linear_srgb`: build (via the external provider)
the conversion from this space to `(Bt709, D65)` and apply it. -/
def to_linear_srgb (kconv : KConv) (s : CustomColorSpace) (color : V3) : V3 :=
  kconv (s.primaries, s.white_point) (.bt709, .d65) color

/-- `CustomColorSpace::from_linear_srgb`: build the conversion from
`(Bt709, D65)` to this space and apply it. -/
def from_linear_srgb (kconv : KConv) (s : CustomColorSpace) (color : V3) : V3 :=
  kconv (.bt709, .d65) (s.primaries, s.white_point) color

end CustomColorSpace

/-- `CustomColorSpace::from_primaries_d65` applied to sRGB's own primaries
`[0.64,0.33],[0.30,0.60],[0.15,0.06]`: `RgbPrimaries::from_rgb_xy` detects
the standard BT.709 variant (asserted by
`tests/custom_color_spaces.rs::test_custom_color_space_round_trip`), so the
resulting space is `{ primaries: Bt709, white_point: D65 }`. -/
def srgbCustomSpace : CustomColorSpace := ⟨.bt709, .d65⟩

/-- `DynamicColor` of `src/custom.rs`: a 3-vector of values in a runtime
color space. -/
structure DynamicColor where
  value : V3
  space : CustomColorSpace

namespace DynamicColor

/-- `DynamicColor::to_linear_srgb`. -/
def to_linear_srgb (kconv : KConv) (d : DynamicColor) : V3 :=
  d.space.to_linear_srgb kconv d.value

/-- `DynamicColor::to_color::<E>()`: build the conversion from the dynamic
space's descriptor to `E`'s linear-space descriptor, apply it to the value,
then apply `E::dst_transform_raw(linear_value, 1.0)`. -/
def to_color {R : Type} (E : Enc R) (kconv : KConv) (d : DynamicColor) : R :=
  let dst_desc := spaceDesc E.space
  let linear_value := kconv (d.space.primaries, d.space.white_point) dst_desc d.value
  E.dstT linear_value (F.fin 1)

/-- `impl From<DynamicColor> for Color<Srgba>`: convert to linear sRGB and
attach alpha `1.0` (`Color::srgba(srgb.x, srgb.y, srgb.z, 1.0)`). -/
def intoSrgba (kconv : KConv) (d : DynamicColor) : V4 :=
  let srgb := d.to_linear_srgb kconv
  ⟨srgb.x, srgb.y, srgb.z, F.fin 1⟩

end DynamicColor

/-! ## Helper definitions and lemmas -/

/-- A trivial linear-space conversion provider, used to instantiate
witnesses (same-space conversions never consult the provider). -/
def linId : LinK := fun _ _ v => v

/-- A trivial `kolor` conversion provider for witnesses. -/
def kconvId : KConv := fun _ _ v => v

/-- `x` and `y` are both finite and within `tol` of each other. -/
def F.withinQ (x y : F) (tol : ℚ) : Prop :=
  ∃ a b : ℚ, x = F.fin a ∧ y = F.fin b ∧ |a - b| ≤ tol

/-- Dividing anything by (positive) zero never yields a finite value. -/
theorem F.div_zero_not_finite (x : F) {q : ℚ} (hq : q = 0) :
    (x.div (F.fin q)).isFinite = false := by
  subst hq
  cases x <;> simp [F.div, F.isFinite]
  split_ifs <;> simp [F.isFinite]

/-- A finite value is some `fin q`. -/
theorem F.isFinite_exists {x : F} (h : x.isFinite = true) : ∃ q, x = F.fin q := by
  cases x with
  | fin q => exact ⟨q, rfl⟩
  | inf => simp [F.isFinite] at h
  | neginf => simp [F.isFinite] at h
  | nan => simp [F.isFinite] at h

/-- `(q / 1) * 1 = q` for finite `q`.  Unlike division by a general
nonzero alpha, division and multiplication by `1.0` are exact operations
in IEEE-754 f32 as well, so this cancellation is faithful to the source's
floating-point arithmetic, not an artifact of the exact-rational model. -/
theorem F.div_one_mul_one (q : ℚ) :
    ((F.fin q).div (F.fin 1)).mul (F.fin 1) = F.fin q := by
  simp [F.div, F.mul]

/-- The saturating u8 cast always lands in `0..=255`. -/
theorem F.u8cast_le (x : F) : x.u8cast ≤ 255 := by
  cases x with
  | fin q =>
    simp only [F.u8cast]
    split_ifs with h1 h2
    · omega
    · omega
    · have hlt : ⌊q⌋ < 255 := by
        rw [Int.floor_lt]
        push_cast
        linarith [not_le.mp h2]
      omega
  | inf => simp [F.u8cast]
  | neginf => simp [F.u8cast]
  | nan => simp [F.u8cast]

/-- `f32_to_u8` always lands in `0..=255`. -/
theorem f32_to_u8_le (x : F) : f32_to_u8 x ≤ 255 := F.u8cast_le _

/-- The u8 → f32 → u8 round trip is exact for every byte value. -/
theorem f32_to_u8_u8_to_f32 (a : ℕ) (ha : a ≤ 255) :
    f32_to_u8 (u8_to_f32 a) = a := by
  have hq0 : (0:ℚ) ≤ (a:ℚ) / 255 := by positivity
  have hq1 : (a:ℚ) / 255 ≤ 1 := by
    rw [div_le_one (by norm_num : (0:ℚ) < 255)]
    exact_mod_cast ha
  have hclamp : F.clamp (F.fin ((a:ℚ) / 255)) (F.fin 0) (F.fin 1) =
      F.fin ((a:ℚ) / 255) := by
    simp [F.clamp, F.ltb, not_lt.mpr hq0, not_lt.mpr hq1]
  have hmul : ((a:ℚ) / 255) * 255 = (a:ℚ) := div_mul_cancel₀ _ (by norm_num)
  have hround : F.roundQ (a:ℚ) = (a:ℚ) := by
    have hhalf : ⌊(1:ℚ)/2⌋ = 0 := by
      rw [Int.floor_eq_zero_iff, Set.mem_Ico]
      norm_num
    have hcomm : (a:ℚ) + 1/2 = 1/2 + ((a:ℤ):ℚ) := by push_cast; ring
    have hfloor : ⌊(a:ℚ) + 1/2⌋ = (a:ℤ) := by
      rw [hcomm, Int.floor_add_int, hhalf, zero_add]
    simp only [F.roundQ, if_pos (by positivity : (0:ℚ) ≤ (a:ℚ)), hfloor]
    push_cast
    rfl
  show F.u8cast (F.roundF ((F.clamp (F.fin ((a:ℚ) / 255)) (F.fin 0) (F.fin 1)).mul
      (F.fin 255))) = a
  rw [hclamp]
  show F.u8cast (F.roundF (F.fin (((a:ℚ) / 255) * 255))) = a
  rw [hmul]
  show F.u8cast (F.fin (F.roundQ (a:ℚ))) = a
  rw [hround]
  simp only [F.u8cast]
  split_ifs with h1 h2
  · have : a = 0 := by exact_mod_cast le_antisymm h1 (by positivity)
    omega
  · have : (255:ℚ) ≤ (a:ℚ) := h2
    have : 255 ≤ a := by exact_mod_cast this
    omega
  · rw [Int.floor_natCast]
    simp

/-! ## Claim theorems -/

/-- C1: for every conversion pair, `convert` applies the source encoding's
to-linear transform, then — only when the two linear spaces differ — the
fixed linear-space conversion to the 3-component color vector, then the
destination encoding's from-linear transform; the alpha produced by step 1
is handed to step 3 exactly unchanged, and the linear-space conversion step
(whose signature takes only a 3-vector) never reads or writes alpha. -/
theorem convert_pipeline {R S : Type} (src : Enc R) (dst : Enc S) (lin : LinK) (c : R) :
    convert src dst lin c =
      dst.dstT
        (if src.space = dst.space then (src.srcT c).1
         else lin src.space dst.space (src.srcT c).1)
        ((src.srcT c).2) := rfl

/-- C2 counterexample: self-conversion is not the identity for every
encoding.  Converting the `SrgbaPremultiplied` color `(1, 0, 0, 0)` to
itself divides by the zero alpha and multiplies back, yielding
`(nan, nan, nan, 0)`, not the original raw value. -/
theorem self_convert_not_identity :
    ¬ (convert SrgbaPremultiplied.enc SrgbaPremultiplied.enc linId
        ⟨F.fin 1, F.fin 0, F.fin 0, F.fin 0⟩ =
          (⟨F.fin 1, F.fin 0, F.fin 0, F.fin 0⟩ : V4)) := by decide

/-- C2 amended: self-conversion is exactly the identity for the
pass-through encodings (`Srgb`, `Srgba`), whose transforms move components
without any arithmetic; for the premultiplied encoding it is the identity
when the stored alpha is exactly `1.0` and the color components are finite
(division and multiplication by `1.0` are exact in IEEE-754 f32 too —
for a general nonzero alpha the `(x/a)*a` round trip double-rounds in f32
and is not bit-exact, and at alpha = 0 it produces NaN components); for an
encoded (EOTF/OETF) encoding it is the identity exactly when the external
transform pair round-trips the raw value bit-exactly. -/
theorem self_convert_identity_cases :
    (∀ (lin : LinK) (c : V3), convert Srgb.enc Srgb.enc lin c = c)
    ∧ (∀ (lin : LinK) (c : V4), convert Srgba.enc Srgba.enc lin c = c)
    ∧ (∀ (lin : LinK) (c : V4), c.w = F.fin 1 →
        c.x.isFinite = true → c.y.isFinite = true → c.z.isFinite = true →
        convert SrgbaPremultiplied.enc SrgbaPremultiplied.enc lin c = c)
    ∧ (∀ (lin : LinK) (eotf oetf : V3 → V3) (c : V3), oetf (eotf c) = c →
        convert (EncodedSrgbF32.enc eotf oetf) (EncodedSrgbF32.enc eotf oetf) lin c = c) := by
  refine ⟨fun _ _ => rfl, fun _ _ => rfl, ?_, fun lin eotf oetf c h => h⟩
  intro lin c hw hx hy hz
  obtain ⟨x, y, z, w⟩ := c
  simp only at hw hx hy hz
  subst hw
  obtain ⟨qx, rfl⟩ := F.isFinite_exists hx
  obtain ⟨qy, rfl⟩ := F.isFinite_exists hy
  obtain ⟨qz, rfl⟩ := F.isFinite_exists hz
  show (⟨((F.fin qx).div (F.fin 1)).mul (F.fin 1),
      ((F.fin qy).div (F.fin 1)).mul (F.fin 1),
      ((F.fin qz).div (F.fin 1)).mul (F.fin 1), F.fin 1⟩ : V4) = _
  rw [F.div_one_mul_one, F.div_one_mul_one, F.div_one_mul_one]

/-- C2 amended witness: the identity cases at concrete colors (alpha `1.0`
with finite components for the premultiplied case, identity transforms for
the encoded case). -/
theorem self_convert_identity_cases_witness :
    convert Srgb.enc Srgb.enc linId ⟨F.fin 2, F.fin 0, F.fin (-1)⟩ =
        (⟨F.fin 2, F.fin 0, F.fin (-1)⟩ : V3)
    ∧ convert Srgba.enc Srgba.enc linId ⟨F.fin 1, F.fin 0, F.fin 0, F.fin 0⟩ =
        (⟨F.fin 1, F.fin 0, F.fin 0, F.fin 0⟩ : V4)
    ∧ convert SrgbaPremultiplied.enc SrgbaPremultiplied.enc linId
        ⟨F.fin (9/10), F.fin 2, F.fin 3, F.fin 1⟩ =
          (⟨F.fin (9/10), F.fin 2, F.fin 3, F.fin 1⟩ : V4)
    ∧ convert (EncodedSrgbF32.enc id id) (EncodedSrgbF32.enc id id) linId
        ⟨F.fin 1, F.fin 0, F.fin 0⟩ = (⟨F.fin 1, F.fin 0, F.fin 0⟩ : V3) :=
  ⟨self_convert_identity_cases.1 linId _,
   self_convert_identity_cases.2.1 linId _,
   self_convert_identity_cases.2.2.1 linId _ rfl rfl rfl rfl,
   self_convert_identity_cases.2.2.2 linId id id _ rfl⟩

/-- C3: the premultiplied encodings' to-linear transforms divide the color
components by the stored alpha with no guard: at alpha = 0 every color
component of the result is non-finite (NaN or an infinity), the returned
alpha is still 0, and no branch substitutes a finite value. -/
theorem premultiplied_alpha_zero_divide :
    (∀ c : V4, c.w = F.fin 0 →
      (SrgbaPremultiplied.src_transform_raw c).1.x.isFinite = false
      ∧ (SrgbaPremultiplied.src_transform_raw c).1.y.isFinite = false
      ∧ (SrgbaPremultiplied.src_transform_raw c).1.z.isFinite = false
      ∧ (SrgbaPremultiplied.src_transform_raw c).2 = F.fin 0)
    ∧ (∀ (eotf : V3 → V3) (r g b : ℕ),
      (EncodedSrgbaPremultipliedU8.src_transform_raw eotf (r, g, b, 0)).1.x.isFinite = false
      ∧ (EncodedSrgbaPremultipliedU8.src_transform_raw eotf (r, g, b, 0)).1.y.isFinite = false
      ∧ (EncodedSrgbaPremultipliedU8.src_transform_raw eotf (r, g, b, 0)).1.z.isFinite = false
      ∧ (EncodedSrgbaPremultipliedU8.src_transform_raw eotf (r, g, b, 0)).2 = u8_to_f32 0) := by
  have h0 : ((0:ℕ):ℚ) / 255 = 0 := by norm_num
  constructor
  · intro c hw
    obtain ⟨x, y, z, w⟩ := c
    simp only at hw
    subst hw
    exact ⟨F.div_zero_not_finite x rfl, F.div_zero_not_finite y rfl,
      F.div_zero_not_finite z rfl, rfl⟩
  · intro eotf r g b
    refine ⟨F.div_zero_not_finite _ h0, F.div_zero_not_finite _ h0,
      F.div_zero_not_finite _ h0, rfl⟩

/-- C3 witness: the unguarded divide at concrete alpha-zero colors. -/
theorem premultiplied_alpha_zero_divide_witness :
    ((SrgbaPremultiplied.src_transform_raw ⟨F.fin 1, F.fin 1, F.fin 1, F.fin 0⟩).1.x.isFinite = false
      ∧ (SrgbaPremultiplied.src_transform_raw ⟨F.fin 1, F.fin 1, F.fin 1, F.fin 0⟩).1.y.isFinite = false
      ∧ (SrgbaPremultiplied.src_transform_raw ⟨F.fin 1, F.fin 1, F.fin 1, F.fin 0⟩).1.z.isFinite = false
      ∧ (SrgbaPremultiplied.src_transform_raw ⟨F.fin 1, F.fin 1, F.fin 1, F.fin 0⟩).2 = F.fin 0)
    ∧ ((EncodedSrgbaPremultipliedU8.src_transform_raw id (255, 128, 7, 0)).1.x.isFinite = false
      ∧ (EncodedSrgbaPremultipliedU8.src_transform_raw id (255, 128, 7, 0)).1.y.isFinite = false
      ∧ (EncodedSrgbaPremultipliedU8.src_transform_raw id (255, 128, 7, 0)).1.z.isFinite = false
      ∧ (EncodedSrgbaPremultipliedU8.src_transform_raw id (255, 128, 7, 0)).2 = u8_to_f32 0) :=
  ⟨premultiplied_alpha_zero_divide.1 ⟨F.fin 1, F.fin 1, F.fin 1, F.fin 0⟩ rfl,
   premultiplied_alpha_zero_divide.2 id 255 128 7⟩

/-- C4: `from_linear` clamps exactly when the lane type is bounded.  The
u8 quantization step `f32_to_u8` lands in `0..=255` for every input —
including NaN (→ 0), +∞ (→ 255), −∞ (→ 0) and out-of-range finite values —
so 8-bit encodings never overflow or underflow; the f32-lane encodings'
from-linear transforms apply no clamp at all: `Srgb`/`Srgba` return the
linear vector unchanged (out-of-range values survive), and
`EncodedSrgbaF32` emits exactly the OETF output and the unclamped alpha. -/
theorem u8_clamps_f32_passes_through :
    (∀ x : F, f32_to_u8 x ≤ 255)
    ∧ f32_to_u8 F.nan = 0
    ∧ f32_to_u8 F.inf = 255
    ∧ f32_to_u8 F.neginf = 0
    ∧ f32_to_u8 (F.fin 2) = 255
    ∧ f32_to_u8 (F.fin (-3)) = 0
    ∧ (∀ (oetf : V3 → V3) (raw : V3) (alpha : F) (r g b a : ℕ),
        EncodedSrgbaU8.dst_transform_raw oetf raw alpha = (r, g, b, a) →
          r ≤ 255 ∧ g ≤ 255 ∧ b ≤ 255 ∧ a ≤ 255)
    ∧ (∀ (raw : V3) (alpha : F), Srgba.dst_transform_raw raw alpha = raw.extend alpha)
    ∧ (∀ (raw : V3) (alpha : F), Srgb.dst_transform_raw raw alpha = raw)
    ∧ (∀ (oetf : V3 → V3) (raw : V3) (alpha : F),
        EncodedSrgbaF32.dst_transform_raw oetf raw alpha = (oetf raw).extend alpha) := by
  refine ⟨f32_to_u8_le, by decide,
    by norm_num [f32_to_u8, F.clamp, F.ltb, F.mul, F.roundF, F.roundQ, F.u8cast],
    by norm_num [f32_to_u8, F.clamp, F.ltb, F.mul, F.roundF, F.roundQ, F.u8cast],
    by norm_num [f32_to_u8, F.clamp, F.ltb, F.mul, F.roundF, F.roundQ, F.u8cast],
    by norm_num [f32_to_u8, F.clamp, F.ltb, F.mul, F.roundF, F.roundQ, F.u8cast],
    ?_, fun _ _ => rfl, fun _ _ => rfl, fun _ _ _ => rfl⟩
  intro oetf raw alpha r g b a h
  simp only [EncodedSrgbaU8.dst_transform_raw, Prod.mk.injEq] at h
  obtain ⟨hr, hg, hb, ha⟩ := h
  exact ⟨hr ▸ f32_to_u8_le _, hg ▸ f32_to_u8_le _, hb ▸ f32_to_u8_le _,
    ha ▸ f32_to_u8_le _⟩

/-- C4 witness: the quantized output bound at a concrete out-of-range
input. -/
theorem u8_clamps_f32_passes_through_witness :
    (EncodedSrgbaU8.dst_transform_raw id ⟨F.inf, F.nan, F.fin (-7)⟩ F.nan =
      (255, 0, 0, 0))
    ∧ (255 ≤ 255 ∧ 0 ≤ 255 ∧ 0 ≤ 255 ∧ (0:ℕ) ≤ 255) := by
  have h : EncodedSrgbaU8.dst_transform_raw id ⟨F.inf, F.nan, F.fin (-7)⟩ F.nan =
      (255, 0, 0, 0) := by
    norm_num [EncodedSrgbaU8.dst_transform_raw, f32_to_u8, F.clamp, F.ltb, F.mul,
      F.roundF, F.roundQ, F.u8cast]
  exact ⟨h,
    u8_clamps_f32_passes_through.2.2.2.2.2.2.1 id ⟨F.inf, F.nan, F.fin (-7)⟩
      F.nan 255 0 0 0 h⟩

/-- C5: the premultiplied `AlphaOver::composite` returns
`c_over + c_under * (1 - a_over)` on every color channel, and the alpha
channel follows the very same formula, `a_over + a_under * (1 - a_over)`. -/
theorem alpha_over_formula (over under : V4) :
    SrgbaPremultiplied.composite over under =
      ⟨over.x.add (under.x.mul ((F.fin 1).sub over.w)),
       over.y.add (under.y.mul ((F.fin 1).sub over.w)),
       over.z.add (under.z.mul ((F.fin 1).sub over.w)),
       over.w.add (under.w.mul ((F.fin 1).sub over.w))⟩ := rfl

/-- C6: converting an 8-bit sRGB-with-alpha color to the linear
sRGB-with-alpha working encoding and back returns the original alpha byte
exactly, for every alpha byte and regardless of the external EOTF/OETF
(the alpha path never touches them). -/
theorem alpha_u8_roundtrip_exact (lin : LinK) (eotf oetf : V3 → V3)
    (r g b a : ℕ) (ha : a ≤ 255) :
    (convert Srgba.enc (EncodedSrgbaU8.enc eotf oetf) lin
      (convert (EncodedSrgbaU8.enc eotf oetf) Srgba.enc lin (r, g, b, a))).2.2.2 = a := by
  show f32_to_u8 (u8_to_f32 a) = a
  exact f32_to_u8_u8_to_f32 a ha

/-- C6 witness: the exact alpha round trip at a concrete color. -/
theorem alpha_u8_roundtrip_exact_witness :
    (convert Srgba.enc (EncodedSrgbaU8.enc id id) linId
      (convert (EncodedSrgbaU8.enc id id) Srgba.enc linId (12, 34, 56, 78))).2.2.2 = 78 :=
  alpha_u8_roundtrip_exact linId id id 12 34 56 78 (by norm_num)

/-- C7: for the `CustomColorSpace` built from sRGB's own primaries and the
D65 white point, `to_linear_srgb` followed by `from_linear_srgb`
reproduces any finite input 3-vector within `1e-4` per component.  The two
conversions are built by the external `kolor` provider; per the spec's
Linear Space Registry invariant the `A→B` / `B→A` pair must round-trip,
which is the hypothesis `hinv`. -/
theorem custom_space_round_trip (kconv : KConv) (v : V3)
    (hinv : ∀ w : V3,
      kconv (Primaries.bt709, WP.d65) (srgbCustomSpace.primaries, srgbCustomSpace.white_point)
        (kconv (srgbCustomSpace.primaries, srgbCustomSpace.white_point)
          (Primaries.bt709, WP.d65) w) = w)
    (hfin : v.isFiniteV) :
    F.withinQ (srgbCustomSpace.from_linear_srgb kconv
        (srgbCustomSpace.to_linear_srgb kconv v)).x v.x (1/10000)
    ∧ F.withinQ (srgbCustomSpace.from_linear_srgb kconv
        (srgbCustomSpace.to_linear_srgb kconv v)).y v.y (1/10000)
    ∧ F.withinQ (srgbCustomSpace.from_linear_srgb kconv
        (srgbCustomSpace.to_linear_srgb kconv v)).z v.z (1/10000) := by
  have hback : srgbCustomSpace.from_linear_srgb kconv
      (srgbCustomSpace.to_linear_srgb kconv v) = v := hinv v
  rw [hback]
  obtain ⟨hx, hy, hz⟩ := hfin
  refine ⟨?_, ?_, ?_⟩
  · cases h : v.x with
    | fin q => exact ⟨q, q, rfl, rfl, by norm_num⟩
    | inf => rw [h] at hx; simp [F.isFinite] at hx
    | neginf => rw [h] at hx; simp [F.isFinite] at hx
    | nan => rw [h] at hx; simp [F.isFinite] at hx
  · cases h : v.y with
    | fin q => exact ⟨q, q, rfl, rfl, by norm_num⟩
    | inf => rw [h] at hy; simp [F.isFinite] at hy
    | neginf => rw [h] at hy; simp [F.isFinite] at hy
    | nan => rw [h] at hy; simp [F.isFinite] at hy
  · cases h : v.z with
    | fin q => exact ⟨q, q, rfl, rfl, by norm_num⟩
    | inf => rw [h] at hz; simp [F.isFinite] at hz
    | neginf => rw [h] at hz; simp [F.isFinite] at hz
    | nan => rw [h] at hz; simp [F.isFinite] at hz

/-- C7 witness: the round trip at the test's vector `(0.5, 0.7, 0.3)` with
the identity conversion provider. -/
theorem custom_space_round_trip_witness :
    F.withinQ (srgbCustomSpace.from_linear_srgb kconvId
        (srgbCustomSpace.to_linear_srgb kconvId ⟨F.fin (1/2), F.fin (7/10), F.fin (3/10)⟩)).x
      (F.fin (1/2)) (1/10000)
    ∧ F.withinQ (srgbCustomSpace.from_linear_srgb kconvId
        (srgbCustomSpace.to_linear_srgb kconvId ⟨F.fin (1/2), F.fin (7/10), F.fin (3/10)⟩)).y
      (F.fin (7/10)) (1/10000)
    ∧ F.withinQ (srgbCustomSpace.from_linear_srgb kconvId
        (srgbCustomSpace.to_linear_srgb kconvId ⟨F.fin (1/2), F.fin (7/10), F.fin (3/10)⟩)).z
      (F.fin (3/10)) (1/10000) :=
  custom_space_round_trip kconvId ⟨F.fin (1/2), F.fin (7/10), F.fin (3/10)⟩
    (fun _ => rfl) ⟨rfl, rfl, rfl⟩

/-- C8: the non-premultiplied `Srgba` composite (and likewise the encoded
premultiplied-u8 composite) is exactly the chain: convert both operands to
the linear premultiplied encoding, apply the premultiplied `over` formula
there, convert the result back — no independent formula. -/
theorem composite_is_premultiplied_chain (lin : LinK) :
    (∀ over under : V4,
      Srgba.composite lin over under =
        convert SrgbaPremultiplied.enc Srgba.enc lin
          (SrgbaPremultiplied.composite
            (convert Srgba.enc SrgbaPremultiplied.enc lin over)
            (convert Srgba.enc SrgbaPremultiplied.enc lin under)))
    ∧ (∀ (eotf oetf : V3 → V3) (over under : ℕ × ℕ × ℕ × ℕ),
      EncodedSrgbaPremultipliedU8.composite eotf oetf lin over under =
        convert SrgbaPremultiplied.enc (EncodedSrgbaPremultipliedU8.enc eotf oetf) lin
          (SrgbaPremultiplied.composite
            (convert (EncodedSrgbaPremultipliedU8.enc eotf oetf) SrgbaPremultiplied.enc lin over)
            (convert (EncodedSrgbaPremultipliedU8.enc eotf oetf) SrgbaPremultiplied.enc lin under))) :=
  ⟨fun _ _ => rfl, fun _ _ _ _ => rfl⟩

/-- C9: `lerp` is `from + (to − from) * factor` componentwise on the raw
representation, for both the 3- and 4-component working reprs, and the
factor is not clamped: factors outside `[0, 1]` extrapolate (shown at
`t = 2` and `t = −1`). -/
theorem lerp_formula_unclamped :
    (∀ (a b : V3) (t : F),
      lerpV3 a b t = ⟨a.x.add ((b.x.sub a.x).mul t), a.y.add ((b.y.sub a.y).mul t),
        a.z.add ((b.z.sub a.z).mul t)⟩)
    ∧ (∀ (a b : V4) (t : F),
      lerpV4 a b t = ⟨a.x.add ((b.x.sub a.x).mul t), a.y.add ((b.y.sub a.y).mul t),
        a.z.add ((b.z.sub a.z).mul t), a.w.add ((b.w.sub a.w).mul t)⟩)
    ∧ lerpV3 ⟨F.fin 0, F.fin 0, F.fin 0⟩ ⟨F.fin 1, F.fin 1, F.fin 1⟩ (F.fin 2) =
        ⟨F.fin 2, F.fin 2, F.fin 2⟩
    ∧ lerpV3 ⟨F.fin 0, F.fin 0, F.fin 0⟩ ⟨F.fin 1, F.fin 1, F.fin 1⟩ (F.fin (-1)) =
        ⟨F.fin (-1), F.fin (-1), F.fin (-1)⟩ := by
  refine ⟨fun _ _ _ => rfl, fun _ _ _ => rfl, ?_, ?_⟩ <;>
    norm_num [lerpV3, V3.add, V3.sub, V3.muls, F.add, F.sub, F.neg, F.mul]

/-- C10: `DynamicColor::to_color` always hands alpha `1.0` to the
destination encoding's from-linear transform, and the `From<DynamicColor>`
conversion to `Color<Srgba>` attaches alpha `1.0` likewise: for every
dynamic color and every alpha-carrying destination encoding the result is
fully opaque (`w = 1.0`, or alpha byte 255 for the u8 encoding),
regardless of the input value, space or conversion provider. -/
theorem dynamic_color_always_opaque :
    (∀ {R : Type} (E : Enc R) (kconv : KConv) (d : DynamicColor),
      DynamicColor.to_color E kconv d =
        E.dstT (kconv (d.space.primaries, d.space.white_point) (spaceDesc E.space) d.value)
          (F.fin 1))
    ∧ (∀ (kconv : KConv) (d : DynamicColor),
        (DynamicColor.to_color Srgba.enc kconv d).w = F.fin 1)
    ∧ (∀ (kconv : KConv) (d : DynamicColor),
        (DynamicColor.to_color SrgbaPremultiplied.enc kconv d).w = F.fin 1)
    ∧ (∀ (kconv : KConv) (eotf oetf : V3 → V3) (d : DynamicColor),
        (DynamicColor.to_color (EncodedSrgbaF32.enc eotf oetf) kconv d).w = F.fin 1)
    ∧ (∀ (kconv : KConv) (eotf oetf : V3 → V3) (d : DynamicColor),
        (DynamicColor.to_color (EncodedSrgbaU8.enc eotf oetf) kconv d).2.2.2 = 255)
    ∧ (∀ (kconv : KConv) (d : DynamicColor),
        (DynamicColor.intoSrgba kconv d).w = F.fin 1) := by
  refine ⟨fun _ _ _ => rfl, fun _ _ => rfl, fun _ _ => rfl, fun _ _ _ _ => rfl,
    fun kconv eotf oetf d => ?_, fun _ _ => rfl⟩
  show f32_to_u8 (F.fin 1) = 255
  norm_num [f32_to_u8, F.clamp, F.ltb, F.mul, F.roundF, F.roundQ, F.u8cast]
